import Mathlib

/-
Verification of the swaylock core (src/main.c) against its natural-language
specification.  The C code is shallowly embedded: pure functions become Lean
functions, the event-driven parts of `main` become explicit step functions on a
state record, and the protocol requests issued to the display server are
recorded as explicit action lists.  Machine integers are modelled as `Nat`
with explicit `% 2 ^ w` where C overflow semantics matter.
-/

namespace Swaylock

/-! ## Color parsing (src/main.c, `parse_color`, lines 29-45)

C strings are modelled as `List Char`.  `strtoul(color, NULL, 16)` is modelled
faithfully: leading whitespace is skipped, an optional sign is consumed, an
optional `0x`/`0X` prefix (only when followed by a hex digit) is skipped, the
maximal run of hex digits is accumulated, the value is clamped to `ULONG_MAX`
on overflow, and a leading minus sign negates in unsigned (mod 2^64)
arithmetic.  The result is cast to `uint32_t`, i.e. taken mod 2^32. -/

def isHexDigitC (c : Char) : Bool :=
  (decide ('0' ≤ c) && decide (c ≤ '9')) ||
  (decide ('a' ≤ c) && decide (c ≤ 'f')) ||
  (decide ('A' ≤ c) && decide (c ≤ 'F'))

def hexDigitVal (c : Char) : Nat :=
  if '0' ≤ c ∧ c ≤ '9' then c.toNat - '0'.toNat
  else if 'a' ≤ c ∧ c ≤ 'f' then c.toNat - 'a'.toNat + 10
  else if 'A' ≤ c ∧ c ≤ 'F' then c.toNat - 'A'.toNat + 10
  else 0

/-- Characters `isspace` accepts in the C locale. -/
def isSpaceC (c : Char) : Bool :=
  c == ' ' || c == '\t' || c == '\n' || c == '\r' ||
  c == Char.ofNat 11 || c == Char.ofNat 12

/-- Optional sign consumed by `strtoul`; returns (negate?, rest). -/
def dropSign (cs : List Char) : Bool × List Char :=
  match cs with
  | [] => (false, [])
  | c :: r =>
    if c = '-' then (true, r)
    else if c = '+' then (false, r)
    else (false, c :: r)

/-- The `0x`/`0X` prefix is skipped in base 16 only when a hex digit follows. -/
def drop0x (cs : List Char) : List Char :=
  match cs with
  | c0 :: x :: d :: r =>
    if (c0 == '0') && (x == 'x' || x == 'X') && isHexDigitC d then d :: r
    else c0 :: x :: d :: r
  | _ => cs

/-- Value of the maximal leading run of hex digits. -/
def hexAccum (cs : List Char) : Nat :=
  (cs.takeWhile isHexDigitC).foldl (fun a c => a * 16 + hexDigitVal c) 0

def ULONG_MAX : Nat := 2 ^ 64 - 1

/-- Model of `strtoul(cs, NULL, 16)` as used by `parse_color`. -/
def strtoul16 (cs : List Char) : Nat :=
  let cs1 := cs.dropWhile isSpaceC
  let sg := dropSign cs1
  let v := min (hexAccum (drop0x sg.2)) ULONG_MAX
  if sg.1 then (2 ^ 64 - v) % 2 ^ 64 else v

/-- The `if (color[0] == '#') ++color;` step of `parse_color`: at most one
leading hash mark is skipped. -/
def stripHash (cs : List Char) : List Char :=
  match cs with
  | c :: rest => if c = '#' then rest else c :: rest
  | [] => []

/-- `parse_color` from src/main.c lines 29-45.  `res << 8 | 0xFF` is computed
in `uint32_t` arithmetic, hence the `% 2 ^ 32` after the shift. -/
def parse_color (color : List Char) : Nat :=
  let c := stripHash color
  let len := c.length
  if len ≠ 6 ∧ len ≠ 8 then 0xFFFFFFFF
  else
    let res := strtoul16 c % 2 ^ 32
    if len = 6 then ((res <<< 8) % 2 ^ 32) ||| 0xFF else res

/-- Concrete evaluations of the embedded `parse_color`, matching the C
function on representative inputs. -/
theorem parse_color_examples :
    parse_color "a3a3a3".toList = 0xA3A3A3FF ∧
    parse_color "#ff000080".toList = 0xFF000080 ∧
    parse_color "#abc".toList = 0xFFFFFFFF ∧
    parse_color "##12345".toList = 0xFF ∧
    parse_color "##1234".toList = 0xFFFFFFFF := by
  decide

/-! ## Process lifecycle (src/main.c, `main` lines 1087-1273, the event
handlers `ext_session_lock_v1_handle_locked`/`_finished` (235-249), `comm_in`
(1036-1055), `term_in` (1057-1059) and `display_in` (1030-1034))

`main` first spins `while (!state.locked) wl_display_dispatch(...)` (the
`lockWait` phase), then writes the readiness byte, daemonizes if requested and
runs the poll loop `while (state.run_display) ...` (the `mainLoop` phase).
Each dispatched event is modelled by `step`; side effects other than field
updates (the readiness write/close, `daemonize()`, `unlock_and_destroy`, the
final round trip) are recorded as `Action`s, and `exit`/`return` as an exit
code.  `wl_display_dispatch` failing is the `displayError` event (`return 2`
during `lockWait`, `run_display = false` in `display_in`); `wl_display_flush`
failing is `flushError` (the `break` in the poll loop). -/

inductive Phase
  | lockWait
  | mainLoop
deriving DecidableEq, Repr

/-- The `auth_state` values src/main.c assigns (`AUTH_STATE_INVALID` in
`comm_in`); the enum lives in swaylock.h, only the constructors main.c
mentions are modelled. -/
inductive AuthState
  | idle
  | invalid
deriving DecidableEq, Repr

structure ProgState where
  phase : Phase
  locked : Bool
  run_display : Bool
  failed_attempts : Nat
  auth_state : AuthState
  /-- Length of `state.password`.  The buffer itself lives in password.c,
  which is not under src/; only its length matters to the claims. -/
  password_len : Nat
  ready_fd : Int
  daemonize_flag : Bool
deriving DecidableEq, Repr

/-- The `mask` argument a loop callback receives (`poll` revents bits). -/
structure PollMask where
  pollin : Bool
  pollhup : Bool
  pollerr : Bool
deriving DecidableEq, Repr

inductive Event
  /-- `ext_session_lock_v1` `locked` notification. -/
  | locked
  /-- `ext_session_lock_v1` `finished` notification. -/
  | finished
  /-- Readiness of the comm reply fd: `reply = none` models
  `read_comm_reply` failing, `some b` a verdict `b`. -/
  | comm (mask : PollMask) (reply : Option Bool)
  /-- The SIGUSR1 self-pipe became readable (`term_in`). -/
  | term
  /-- `wl_display_dispatch` returned -1. -/
  | displayError
  /-- `wl_display_flush` failed with an error other than EAGAIN. -/
  | flushError
deriving DecidableEq, Repr

inductive Action
  /-- `write(state.args.ready_fd, "\n", 1)` (main.c line 1233). -/
  | writeReadyByte
  /-- `close(state.args.ready_fd)` (line 1237). -/
  | closeReadyFd
  /-- `daemonize()` (line 1241). -/
  | daemonizeProc
  /-- `ext_session_lock_v1_unlock_and_destroy` (line 1266). -/
  | unlockAndDestroy
  /-- The final `wl_display_roundtrip` (line 1267). -/
  | roundtrip
deriving DecidableEq, Repr

inductive StepOut
  | cont (s : ProgState)
  | exit (code : Nat)
deriving DecidableEq, Repr

/-- Code run between the two loops of `main` (lines 1232-1242) once the
lock-wait loop observes `state.locked`: readiness byte + close when
`ready_fd >= 0`, then `daemonize()` when requested. -/
def readyActions (s : ProgState) : List Action :=
  (if 0 ≤ s.ready_fd then [Action.writeReadyByte, Action.closeReadyFd] else []) ++
  (if s.daemonize_flag then [Action.daemonizeProc] else [])

/-- State after the lock is confirmed: `locked` was set by the handler,
`ready_fd` is reset to -1 after the close (line 1238), and
`state.run_display = true` (line 1257) as the poll loop is entered. -/
def afterLockState (s : ProgState) : ProgState :=
  { s with phase := Phase.mainLoop, locked := true,
           ready_fd := if 0 ≤ s.ready_fd then -1 else s.ready_fd,
           run_display := true }

/-- `comm_in` (src/main.c lines 1036-1055).  On a negative verdict the
handler sets `AUTH_STATE_INVALID`, increments `failed_attempts` and damages
the surfaces; the clearing of the password buffer on a failed attempt
(`password_len := 0`) is modelled from the spec, because the submit/clear
path lives in password.c which is not under src/. -/
def comm_in (s : ProgState) (mask : PollMask) (reply : Option Bool) :
    List Action × StepOut :=
  if mask.pollin then
    match reply with
    | none => ([], StepOut.exit 1)
    | some true => ([], StepOut.cont { s with run_display := false })
    | some false =>
      ([], StepOut.cont { s with auth_state := AuthState.invalid,
                                 failed_attempts := s.failed_attempts + 1,
                                 password_len := 0 })
  else if mask.pollhup || mask.pollerr then ([], StepOut.exit 1)
  else ([], StepOut.cont s)

/-- One dispatched event.  During `lockWait` only display events can occur
(the comm and signal fds are registered with the loop only after locking,
lines 1244-1249), so comm/term/flush events leave the state unchanged
there. -/
def step (s : ProgState) : Event → List Action × StepOut
  | Event.locked =>
    match s.phase with
    | Phase.lockWait => (readyActions s, StepOut.cont (afterLockState s))
    | Phase.mainLoop => ([], StepOut.cont { s with locked := true })
  | Event.finished => ([], StepOut.exit 2)
  | Event.comm mask reply =>
    match s.phase with
    | Phase.lockWait => ([], StepOut.cont s)
    | Phase.mainLoop => comm_in s mask reply
  | Event.term =>
    match s.phase with
    | Phase.lockWait => ([], StepOut.cont s)
    | Phase.mainLoop => ([], StepOut.cont { s with run_display := false })
  | Event.displayError =>
    match s.phase with
    | Phase.lockWait => ([], StepOut.exit 2)
    | Phase.mainLoop => ([], StepOut.cont { s with run_display := false })
  | Event.flushError =>
    match s.phase with
    | Phase.lockWait => ([], StepOut.cont s)
    | Phase.mainLoop => ([], StepOut.cont { s with run_display := false })

inductive RunResult
  | exited (code : Nat)
  | pending (s : ProgState)
deriving DecidableEq, Repr

/-- The poll loop has terminated: `while (state.run_display)` is false. -/
def loopDone (s : ProgState) : Bool :=
  match s.phase with
  | Phase.mainLoop => !s.run_display
  | Phase.lockWait => false

/-- Drive the process over a list of delivered events.  Once the poll loop
observes `run_display == false` it stops consuming events and `main` issues
`unlock_and_destroy` followed by one final round trip, returning 0 (lines
1258-1272). -/
def run (s : ProgState) (evs : List Event) : List Action × RunResult :=
  if loopDone s then
    ([Action.unlockAndDestroy, Action.roundtrip], RunResult.exited 0)
  else
    match evs with
    | [] => ([], RunResult.pending s)
    | e :: rest =>
      match step s e with
      | (acts, StepOut.exit c) => (acts, RunResult.exited c)
      | (acts, StepOut.cont s1) =>
        let p := run s1 rest
        (acts ++ p.1, p.2)

/-- Command-line inputs relevant to the lifecycle claims. -/
structure Args where
  ready_fd : Int
  daemonize_flag : Bool
deriving DecidableEq, Repr

/-- Process state at entry to the lock-wait loop (fields initialised in
`main`, lines 1093 and 1257: `failed_attempts = 0`, `run_display` still
false, nothing locked yet). -/
def initState (a : Args) : ProgState :=
  { phase := Phase.lockWait, locked := false, run_display := false,
    failed_attempts := 0, auth_state := AuthState.idle, password_len := 0,
    ready_fd := a.ready_fd, daemonize_flag := a.daemonize_flag }

/-! ### Basic facts about `run` -/

theorem run_pending_not_done {s : ProgState} {evs : List Event}
    {acts : List Action} {s' : ProgState}
    (h : run s evs = (acts, RunResult.pending s')) : loopDone s' = false := by
  induction evs generalizing s acts with
  | nil =>
    by_cases hd : loopDone s
    · simp [run, hd] at h
    · simp [run, hd] at h
      rw [← h.2]
      simpa using hd
  | cons e rest ih =>
    by_cases hd : loopDone s
    · simp [run, hd] at h
    · rcases hstep : step s e with ⟨a, o⟩
      cases o with
      | exit c => simp [run, hd, hstep] at h
      | cont s1 =>
        rcases hrun : run s1 rest with ⟨a2, r2⟩
        simp [run, hd, hstep, hrun] at h
        cases r2 with
        | exited c => simp at h
        | pending t =>
          have ht : t = s' := by simpa using h.2
          subst ht
          exact ih hrun

theorem run_pending_append {s : ProgState} {pre : List Event}
    {acts : List Action} {s' : ProgState}
    (h : run s pre = (acts, RunResult.pending s')) (rest : List Event) :
    run s (pre ++ rest) = (acts ++ (run s' rest).1, (run s' rest).2) := by
  induction pre generalizing s acts with
  | nil =>
    by_cases hd : loopDone s
    · simp [run, hd] at h
    · simp [run, hd] at h
      obtain ⟨ha, hs⟩ := h
      subst ha
      subst hs
      simp
  | cons e p ih =>
    by_cases hd : loopDone s
    · simp [run, hd] at h
    · rcases hstep : step s e with ⟨a, o⟩
      cases o with
      | exit c => simp [run, hd, hstep] at h
      | cont s1 =>
        rcases hrun : run s1 p with ⟨a2, r2⟩
        simp [run, hd, hstep, hrun] at h
        cases r2 with
        | exited c => simp at h
        | pending t =>
          have ht : t = s' := by simpa using h.2
          subst ht
          have ihh := ih hrun
          have : run s (e :: (p ++ rest)) =
              (a ++ (run s1 (p ++ rest)).1, (run s1 (p ++ rest)).2) := by
            simp [run, hd, hstep]
          rw [List.cons_append, this, ihh, ← h.1]
          simp

/-- Claim C1: if the display server delivers a `finished` notification on the
session lock object, in any state (including before the lock was ever
confirmed), the process exits immediately with the distinct non-zero status 2
(`ext_session_lock_v1_handle_finished`, src/main.c lines 240-244), and never
subsequently transitions to Locked: the run consumes nothing after the
`finished` event, so `state.locked` is never set afterwards. -/
theorem C1_finished_fatal (s : ProgState) (pre post : List Event)
    (acts : List Action) (s' : ProgState)
    (h : run s pre = (acts, RunResult.pending s')) :
    run s (pre ++ Event.finished :: post) = (acts, RunResult.exited 2) ∧
    (∀ t : ProgState, step t Event.finished = ([], StepOut.exit 2)) ∧
    (2 : Nat) ≠ 0 := by
  refine ⟨?_, fun t => rfl, by decide⟩
  have hd := run_pending_not_done h
  rw [run_pending_append h (Event.finished :: post)]
  simp [run, hd, step]

/-- Witness for C1 at a concrete initial state and trace. -/
theorem C1_finished_fatal_witness :
    run (initState { ready_fd := -1, daemonize_flag := false })
        ([] ++ Event.finished :: []) = ([], RunResult.exited 2) ∧
    (∀ t : ProgState, step t Event.finished = ([], StepOut.exit 2)) ∧
    (2 : Nat) ≠ 0 :=
  C1_finished_fatal (initState { ready_fd := -1, daemonize_flag := false })
    [] [] [] (initState { ready_fd := -1, daemonize_flag := false }) rfl

/-- An event on the comm reply fd that breaks the authentication channel:
either the fd is readable but `read_comm_reply` fails (malformed/short
reply), or the poll mask signals hang-up or error without readability. -/
def isBrokenComm : Event → Bool
  | Event.comm mask reply =>
    (mask.pollin && reply == none) ||
    (!mask.pollin && (mask.pollhup || mask.pollerr))
  | _ => false

theorem step_brokenComm {s : ProgState} {e : Event}
    (hm : s.phase = Phase.mainLoop) (hb : isBrokenComm e = true) :
    step s e = ([], StepOut.exit 1) := by
  cases e with
  | comm mask reply =>
    rcases mask with ⟨pin, phup, perr⟩
    obtain ⟨ph, lk, rd, fa, au, pl, rf, df⟩ := s
    simp only at hm
    subst hm
    cases pin <;> cases reply <;>
      simp_all [isBrokenComm, step, comm_in]
  | locked => simp [isBrokenComm] at hb
  | finished => simp [isBrokenComm] at hb
  | term => simp [isBrokenComm] at hb
  | displayError => simp [isBrokenComm] at hb
  | flushError => simp [isBrokenComm] at hb

/-- Claim C5: if the authentication channel breaks — the reply pipe signals
hang-up or error, or a reply read fails — `comm_in` (src/main.c lines
1036-1055) exits the process immediately with the non-zero status
EXIT_FAILURE = 1; nothing after the breaking event is ever processed, so the
channel is never retried or re-established. -/
theorem C5_channel_broken_fatal (s0 : ProgState) (pre post : List Event)
    (acts : List Action) (s' : ProgState) (e : Event)
    (h : run s0 pre = (acts, RunResult.pending s'))
    (hm : s'.phase = Phase.mainLoop)
    (hb : isBrokenComm e = true) :
    run s0 (pre ++ e :: post) = (acts, RunResult.exited 1) ∧ (1 : Nat) ≠ 0 := by
  refine ⟨?_, by decide⟩
  have hd := run_pending_not_done h
  rw [run_pending_append h (e :: post)]
  simp [run, hd, step_brokenComm hm hb]

/-- Witness for C5: a hang-up on the comm fd in the poll loop. -/
theorem C5_channel_broken_fatal_witness :
    run { phase := Phase.mainLoop, locked := true, run_display := true,
          failed_attempts := 0, auth_state := AuthState.idle,
          password_len := 0, ready_fd := -1, daemonize_flag := false }
        ([] ++ Event.comm ⟨false, true, false⟩ none :: []) =
      ([], RunResult.exited 1) ∧ (1 : Nat) ≠ 0 :=
  C5_channel_broken_fatal
    { phase := Phase.mainLoop, locked := true, run_display := true,
      failed_attempts := 0, auth_state := AuthState.idle,
      password_len := 0, ready_fd := -1, daemonize_flag := false }
    [] [] []
    { phase := Phase.mainLoop, locked := true, run_display := true,
      failed_attempts := 0, auth_state := AuthState.idle,
      password_len := 0, ready_fd := -1, daemonize_flag := false }
    (Event.comm ⟨false, true, false⟩ none) rfl rfl rfl

/-- Claim C4: for every negative authentication verdict received by `comm_in`
(src/main.c lines 1045-1050), the failed-attempt counter is incremented by
exactly one, the secret buffer is cleared (spec-modelled, see `comm_in`), the
visible authentication state becomes `AUTH_STATE_INVALID`, and the event loop
keeps running (the step continues, `run_display` untouched); after three
negative verdicts followed by one positive verdict from a fresh poll-loop
state, the counter reads exactly 3 at the moment the positive verdict is
observed, and the process proceeds to unlock (`unlock_and_destroy`, final
round trip, exit 0). -/
theorem C4_failed_attempts (s : ProgState) (mask : PollMask)
    (hm : s.phase = Phase.mainLoop) (hin : mask.pollin = true) :
    (step s (Event.comm mask (some false)) =
      ([], StepOut.cont { s with auth_state := AuthState.invalid,
                                 failed_attempts := s.failed_attempts + 1,
                                 password_len := 0 })) ∧
    (s.run_display = true → s.failed_attempts = 0 →
      ∃ s3 : ProgState,
        run s [Event.comm mask (some false), Event.comm mask (some false),
               Event.comm mask (some false)] = ([], RunResult.pending s3) ∧
        s3.failed_attempts = 3 ∧ s3.run_display = true ∧
        s3.auth_state = AuthState.invalid ∧ s3.password_len = 0 ∧
        step s3 (Event.comm mask (some true)) =
          ([], StepOut.cont { s3 with run_display := false }) ∧
        run s [Event.comm mask (some false), Event.comm mask (some false),
               Event.comm mask (some false), Event.comm mask (some true)] =
          ([Action.unlockAndDestroy, Action.roundtrip], RunResult.exited 0)) := by
  obtain ⟨ph, lk, rd, fa, au, pl, rf, df⟩ := s
  simp only at hm
  subst hm
  constructor
  · simp [step, comm_in, hin]
  · intro hrd hfa
    simp only at hrd hfa
    subst hrd
    subst hfa
    refine ⟨{ phase := Phase.mainLoop, locked := lk, run_display := true,
              failed_attempts := 3, auth_state := AuthState.invalid,
              password_len := 0, ready_fd := rf, daemonize_flag := df }, ?_⟩
    refine ⟨?_, rfl, rfl, rfl, rfl, ?_, ?_⟩
    · simp [run, loopDone, step, comm_in, hin]
    · simp [step, comm_in, hin]
    · simp [run, loopDone, step, comm_in, hin]

/-- Witness for C4 at a concrete poll-loop state and mask. -/
theorem C4_failed_attempts_witness :
    (step { phase := Phase.mainLoop, locked := true, run_display := true,
            failed_attempts := 0, auth_state := AuthState.idle,
            password_len := 5, ready_fd := -1, daemonize_flag := false }
        (Event.comm ⟨true, false, false⟩ (some false)) =
      ([], StepOut.cont { phase := Phase.mainLoop, locked := true,
                          run_display := true, failed_attempts := 1,
                          auth_state := AuthState.invalid, password_len := 0,
                          ready_fd := -1, daemonize_flag := false })) ∧
    (∃ s3 : ProgState,
      run { phase := Phase.mainLoop, locked := true, run_display := true,
            failed_attempts := 0, auth_state := AuthState.idle,
            password_len := 5, ready_fd := -1, daemonize_flag := false }
          [Event.comm ⟨true, false, false⟩ (some false),
           Event.comm ⟨true, false, false⟩ (some false),
           Event.comm ⟨true, false, false⟩ (some false)] =
        ([], RunResult.pending s3) ∧
      s3.failed_attempts = 3 ∧ s3.run_display = true ∧
      s3.auth_state = AuthState.invalid ∧ s3.password_len = 0 ∧
      step s3 (Event.comm ⟨true, false, false⟩ (some true)) =
        ([], StepOut.cont { s3 with run_display := false }) ∧
      run { phase := Phase.mainLoop, locked := true, run_display := true,
            failed_attempts := 0, auth_state := AuthState.idle,
            password_len := 5, ready_fd := -1, daemonize_flag := false }
          [Event.comm ⟨true, false, false⟩ (some false),
           Event.comm ⟨true, false, false⟩ (some false),
           Event.comm ⟨true, false, false⟩ (some false),
           Event.comm ⟨true, false, false⟩ (some true)] =
        ([Action.unlockAndDestroy, Action.roundtrip], RunResult.exited 0)) := by
  have h := C4_failed_attempts
    { phase := Phase.mainLoop, locked := true, run_display := true,
      failed_attempts := 0, auth_state := AuthState.idle,
      password_len := 5, ready_fd := -1, daemonize_flag := false }
    ⟨true, false, false⟩ rfl rfl
  exact ⟨h.1, h.2 rfl rfl⟩

/-! ### Shapes of the emitted action traces -/

theorem comm_in_acts (s : ProgState) (mask : PollMask) (reply : Option Bool) :
    (comm_in s mask reply).1 = [] := by
  by_cases hp : mask.pollin
  · rcases reply with _ | b
    · simp [comm_in, hp]
    · cases b <;> simp [comm_in, hp]
  · by_cases hh : (mask.pollhup || mask.pollerr) = true
    · simp [comm_in, hp, hh]
    · simp [comm_in, hp, hh]

theorem step_acts_cases (s : ProgState) (e : Event) :
    (step s e).1 = [] ∨
    (s.phase = Phase.lockWait ∧ e = Event.locked ∧
      (step s e).1 = readyActions s) := by
  obtain ⟨ph, lk, rd, fa, au, pl, rf, df⟩ := s
  cases ph <;> cases e <;>
    simp [step, comm_in_acts]

theorem step_mainLoop_shape (s : ProgState) (e : Event)
    (hm : s.phase = Phase.mainLoop) :
    (step s e).1 = [] ∧
    (∀ s1 : ProgState, (step s e).2 = StepOut.cont s1 →
      s1.phase = Phase.mainLoop) := by
  obtain ⟨ph, lk, rd, fa, au, pl, rf, df⟩ := s
  simp only at hm
  subst hm
  cases e with
  | comm mask reply =>
    rcases mask with ⟨pin, phup, perr⟩
    rcases reply with _ | b
    · cases pin <;> cases phup <;> cases perr <;>
        simp_all [step, comm_in]
    · cases pin <;> cases b <;> cases phup <;> cases perr <;>
        simp_all [step, comm_in]
  | locked =>
    refine ⟨rfl, fun s1 h => ?_⟩
    simp [step] at h
    rw [← h]
  | finished => exact ⟨rfl, by simp [step]⟩
  | term =>
    refine ⟨rfl, fun s1 h => ?_⟩
    simp [step] at h
    rw [← h]
  | displayError =>
    refine ⟨rfl, fun s1 h => ?_⟩
    simp [step] at h
    rw [← h]
  | flushError =>
    refine ⟨rfl, fun s1 h => ?_⟩
    simp [step] at h
    rw [← h]

theorem run_mainLoop_acts (evs : List Event) (s : ProgState)
    (hm : s.phase = Phase.mainLoop) :
    (run s evs).1 = [] ∨
    (run s evs).1 = [Action.unlockAndDestroy, Action.roundtrip] := by
  induction evs generalizing s with
  | nil => by_cases hd : loopDone s <;> simp [run, hd]
  | cons e rest ih =>
    by_cases hd : loopDone s
    · simp [run, hd]
    · rcases hstep : step s e with ⟨a, o⟩
      have hsh := step_mainLoop_shape s e hm
      rw [hstep] at hsh
      cases o with
      | exit c =>
        simp only [run, hd, hstep, if_false, Bool.false_eq_true]
        exact Or.inl hsh.1
      | cont s1 =>
        have h1 : s1.phase = Phase.mainLoop := hsh.2 s1 rfl
        have ha : a = [] := hsh.1
        subst ha
        simpa [run, hd, hstep] using ih s1 h1

theorem step_lockWait_locked {s : ProgState} (hl : s.phase = Phase.lockWait) :
    step s Event.locked = (readyActions s, StepOut.cont (afterLockState s)) := by
  obtain ⟨ph, lk, rd, fa, au, pl, rf, df⟩ := s
  simp only at hl
  subst hl
  rfl

theorem step_lockWait_nonlocked {s : ProgState} {e : Event}
    (hl : s.phase = Phase.lockWait) (he : e ≠ Event.locked) :
    step s e = ([], StepOut.cont s) ∨
    (∃ c, step s e = ([], StepOut.exit c)) := by
  obtain ⟨ph, lk, rd, fa, au, pl, rf, df⟩ := s
  simp only at hl
  subst hl
  cases e with
  | locked => exact absurd rfl he
  | finished => exact Or.inr ⟨2, rfl⟩
  | displayError => exact Or.inr ⟨2, rfl⟩
  | comm mask reply => exact Or.inl rfl
  | term => exact Or.inl rfl
  | flushError => exact Or.inl rfl

theorem loopDone_lockWait {s : ProgState} (hl : s.phase = Phase.lockWait) :
    loopDone s = false := by
  unfold loopDone
  rw [hl]

theorem run_lockWait_acts (evs : List Event) (s : ProgState)
    (hl : s.phase = Phase.lockWait) :
    (run s evs).1 = [] ∨
    ∃ tail, (run s evs).1 = readyActions s ++ tail ∧
      (tail = [] ∨ tail = [Action.unlockAndDestroy, Action.roundtrip]) := by
  have hd : loopDone s = false := loopDone_lockWait hl
  induction evs with
  | nil => simp [run, hd]
  | cons e rest ih =>
    by_cases he : e = Event.locked
    · subst he
      rcases hrest : run (afterLockState s) rest with ⟨a2, r2⟩
      have h2 : a2 = [] ∨ a2 = [Action.unlockAndDestroy, Action.roundtrip] := by
        have := run_mainLoop_acts rest (afterLockState s) rfl
        rw [hrest] at this
        exact this
      refine Or.inr ⟨a2, ?_, h2⟩
      simp [run, hd, step_lockWait_locked hl, hrest]
    · rcases step_lockWait_nonlocked hl he with hstep | ⟨c, hstep⟩
      · simpa [run, hd, hstep] using ih
      · simp [run, hd, hstep]

/-- A positive verdict observed by `comm_in`: the fd was readable and
`read_comm_reply` produced `true`. -/
def isCommSuccess : Event → Bool
  | Event.comm mask (some true) => mask.pollin
  | _ => false

theorem readyActions_no_unlock (s : ProgState) :
    Action.unlockAndDestroy ∉ readyActions s := by
  unfold readyActions
  split <;> split <;> simp

theorem run_unlock_final (evs : List Event) (s : ProgState)
    (acts : List Action) (r : RunResult)
    (h : run s evs = (acts, r)) (hmem : Action.unlockAndDestroy ∈ acts) :
    (∃ pre, acts = pre ++ [Action.unlockAndDestroy, Action.roundtrip] ∧
      Action.unlockAndDestroy ∉ pre) ∧ r = RunResult.exited 0 := by
  induction evs generalizing s acts r with
  | nil =>
    by_cases hd : loopDone s
    · simp [run, hd] at h
      exact ⟨⟨[], by simp [← h.1], by simp⟩, h.2.symm⟩
    · simp [run, hd] at h
      rw [h.1] at hmem
      simp at hmem
  | cons e rest ih =>
    by_cases hd : loopDone s
    · simp [run, hd] at h
      exact ⟨⟨[], by simp [← h.1], by simp⟩, h.2.symm⟩
    · rcases hstep : step s e with ⟨a, o⟩
      have hanu : Action.unlockAndDestroy ∉ a := by
        rcases step_acts_cases s e with h1 | ⟨_, _, h1⟩ <;>
          rw [hstep] at h1 <;> simp only at h1
        · simp [h1]
        · rw [h1]
          exact readyActions_no_unlock s
      cases o with
      | exit c =>
        simp [run, hd, hstep] at h
        rw [← h.1] at hmem
        exact absurd hmem hanu
      | cont s1 =>
        rcases hrun : run s1 rest with ⟨a2, r2⟩
        simp [run, hd, hstep, hrun] at h
        obtain ⟨ha, hr⟩ := h
        subst hr
        rw [← ha] at hmem
        have hmem2 : Action.unlockAndDestroy ∈ a2 := by
          rcases List.mem_append.1 hmem with h2 | h2
          · exact absurd h2 hanu
          · exact h2
        obtain ⟨⟨pre2, hp2, hnp2⟩, hr2⟩ := ih s1 a2 r2 hrun hmem2
        refine ⟨⟨a ++ pre2, ?_, ?_⟩, hr2⟩
        · rw [← ha, hp2, List.append_assoc]
        · simp [List.mem_append, hanu, hnp2]

theorem rundisplay_cleared {s s1 : ProgState} {e : Event} {acts : List Action}
    (h : step s e = (acts, StepOut.cont s1))
    (hrd : s.run_display = true) (hrd1 : s1.run_display = false) :
    isCommSuccess e = true ∨ e = Event.term ∨ e = Event.displayError ∨
      e = Event.flushError := by
  obtain ⟨ph, lk, rd, fa, au, pl, rf, df⟩ := s
  simp only at hrd
  subst hrd
  cases e with
  | locked =>
    cases ph with
    | lockWait =>
      simp [step, afterLockState] at h
      rw [← h.2] at hrd1
      simp [afterLockState] at hrd1
    | mainLoop =>
      simp [step, afterLockState] at h
      rw [← h.2] at hrd1
      simp [afterLockState] at hrd1
  | finished => cases ph <;> simp [step] at h
  | term => simp
  | displayError => simp
  | flushError => simp
  | comm mask reply =>
    rcases mask with ⟨pin, phup, perr⟩
    cases ph with
    | lockWait =>
      simp [step] at h
      rw [← h.2] at hrd1
      simp at hrd1
    | mainLoop =>
      rcases reply with _ | b
      · cases pin <;> cases phup <;> cases perr <;>
          simp_all [step, comm_in] <;> (rw [← h.2] at hrd1; simp at hrd1)
      · cases pin <;> cases b <;> cases phup <;> cases perr <;>
          simp_all [step, comm_in, isCommSuccess] <;>
          (rw [← h.2] at hrd1; simp at hrd1)

/-- Counterexample to claim C6 as stated: from a poll-loop state, a failure
of `wl_display_dispatch` (the `display_in` callback, src/main.c lines
1030-1034) clears `run_display` and drives the process to
`unlock_and_destroy`, although the trace contains neither a positive
authentication verdict nor a termination signal. -/
theorem C6_counterexample :
    Action.unlockAndDestroy ∈
      (run { phase := Phase.mainLoop, locked := true, run_display := true,
             failed_attempts := 0, auth_state := AuthState.idle,
             password_len := 0, ready_fd := -1, daemonize_flag := false }
           [Event.displayError]).1 ∧
    ([Event.displayError].all
        fun e => !isCommSuccess e && !(e == Event.term)) = true := by
  decide

/-- Claim C6 (amended): the unlock-and-destroy sequence is triggered only by
the events that stop the event loop by clearing `run_display` — a positive
authentication verdict, the termination-signal path, or display-connection
failure (`wl_display_dispatch` or `wl_display_flush` failing) — and whenever
the process issues `unlock_and_destroy` on the session lock it is followed by
exactly one final display round trip, after which the process exits 0. -/
theorem C6_unlock_shutdown :
    (∀ (s s1 : ProgState) (e : Event) (acts : List Action),
      step s e = (acts, StepOut.cont s1) → s.run_display = true →
      s1.run_display = false →
      isCommSuccess e = true ∨ e = Event.term ∨ e = Event.displayError ∨
        e = Event.flushError) ∧
    (∀ (evs : List Event) (s : ProgState) (acts : List Action) (r : RunResult),
      run s evs = (acts, r) → Action.unlockAndDestroy ∈ acts →
      (∃ pre, acts = pre ++ [Action.unlockAndDestroy, Action.roundtrip] ∧
        Action.unlockAndDestroy ∉ pre) ∧ r = RunResult.exited 0) :=
  ⟨fun _ _ _ _ h hrd hrd1 => rundisplay_cleared h hrd hrd1,
   fun evs s acts r h hmem => run_unlock_final evs s acts r h hmem⟩

/-- Witness for C6 (amended): the termination-signal path at a concrete
poll-loop state, and a concrete run reaching the shutdown pair. -/
theorem C6_unlock_shutdown_witness :
    (isCommSuccess Event.term = true ∨ Event.term = Event.term ∨
      Event.term = Event.displayError ∨ Event.term = Event.flushError) ∧
    ((∃ pre, ([Action.unlockAndDestroy, Action.roundtrip] : List Action) =
        pre ++ [Action.unlockAndDestroy, Action.roundtrip] ∧
        Action.unlockAndDestroy ∉ pre) ∧
      (RunResult.exited 0 : RunResult) = RunResult.exited 0) := by
  constructor
  · exact C6_unlock_shutdown.1
      { phase := Phase.mainLoop, locked := true, run_display := true,
        failed_attempts := 0, auth_state := AuthState.idle,
        password_len := 0, ready_fd := -1, daemonize_flag := false }
      { phase := Phase.mainLoop, locked := true, run_display := false,
        failed_attempts := 0, auth_state := AuthState.idle,
        password_len := 0, ready_fd := -1, daemonize_flag := false }
      Event.term [] rfl rfl rfl
  · exact C6_unlock_shutdown.2 [Event.term, Event.term]
      { phase := Phase.mainLoop, locked := true, run_display := true,
        failed_attempts := 0, auth_state := AuthState.idle,
        password_len := 0, ready_fd := -1, daemonize_flag := false }
      [Action.unlockAndDestroy, Action.roundtrip] (RunResult.exited 0)
      (by decide) (by decide)

theorem readyActions_count (s : ProgState) :
    (readyActions s).count Action.writeReadyByte =
      (if 0 ≤ s.ready_fd then 1 else 0) := by
  unfold readyActions
  split <;> split <;> rfl

/-- Claim C3: when a readiness file descriptor is supplied (`ready_fd >= 0`),
exactly one byte is written to it, and only at the step where the server has
confirmed the lock (`state.locked` set by
`ext_session_lock_v1_handle_locked`, after which `main` leaves the
`while (!state.locked)` loop, lines 1225-1242); the descriptor is closed
immediately afterwards and reset to -1, it is never written again (in
particular never from the poll loop), and `daemonize()` also happens only at
that step, after the readiness write.  The action trace of any run from the
initial state carries at most one readiness write. -/
theorem C3_readiness (a : Args) (evs : List Event) (_ha : 0 ≤ a.ready_fd) :
    ((run (initState a) evs).1.count Action.writeReadyByte ≤ 1) ∧
    (∀ s : ProgState, s.phase = Phase.lockWait → 0 ≤ s.ready_fd →
      step s Event.locked =
        (Action.writeReadyByte :: Action.closeReadyFd ::
          (if s.daemonize_flag then [Action.daemonizeProc] else []),
         StepOut.cont (afterLockState s)) ∧
      (afterLockState s).locked = true ∧ (afterLockState s).ready_fd = -1) ∧
    (∀ (s : ProgState) (e : Event) (acts : List Action) (o : StepOut),
      step s e = (acts, o) → Action.writeReadyByte ∈ acts →
      s.phase = Phase.lockWait ∧ e = Event.locked ∧ 0 ≤ s.ready_fd ∧
      o = StepOut.cont (afterLockState s) ∧ (afterLockState s).locked = true ∧
      acts.count Action.writeReadyByte = 1) ∧
    (∀ (s : ProgState) (e : Event) (acts : List Action) (o : StepOut),
      step s e = (acts, o) → Action.daemonizeProc ∈ acts →
      s.phase = Phase.lockWait ∧ e = Event.locked ∧ s.daemonize_flag = true ∧
      o = StepOut.cont (afterLockState s) ∧
      (afterLockState s).locked = true) ∧
    (∀ (s : ProgState) (evs2 : List Event), s.phase = Phase.mainLoop →
      Action.writeReadyByte ∉ (run s evs2).1) := by
  refine ⟨?_, ?_, ?_, ?_, ?_⟩
  · rcases run_lockWait_acts evs (initState a) rfl with h | ⟨tail, h, htail⟩
    · simp [h]
    · rw [h, List.count_append, readyActions_count]
      have ht : tail.count Action.writeReadyByte = 0 := by
        rcases htail with ht | ht <;> simp [ht]
      rw [ht]
      split <;> simp
  · intro s hl hrf
    refine ⟨?_, rfl, ?_⟩
    · rw [step_lockWait_locked hl]
      unfold readyActions
      rw [if_pos hrf]
      rfl
    · simp [afterLockState, if_pos hrf]
  · intro s e acts o hstep hmem
    rcases step_acts_cases s e with h1 | ⟨hl, he, h1⟩ <;>
      rw [hstep] at h1 <;> simp only at h1
    · rw [h1] at hmem
      simp at hmem
    · subst he
      rw [h1] at hmem
      have hrf : 0 ≤ s.ready_fd := by
        by_contra hneg
        unfold readyActions at hmem
        rw [if_neg hneg] at hmem
        revert hmem
        split <;> simp
      have hsl := step_lockWait_locked hl
      rw [hstep] at hsl
      have hacts : acts = readyActions s := h1
      have ho : o = StepOut.cont (afterLockState s) := by
        have := congrArg Prod.snd hsl
        simpa using this
      refine ⟨hl, rfl, hrf, ho, rfl, ?_⟩
      rw [hacts, readyActions_count, if_pos hrf]
  · intro s e acts o hstep hmem
    rcases step_acts_cases s e with h1 | ⟨hl, he, h1⟩ <;>
      rw [hstep] at h1 <;> simp only at h1
    · rw [h1] at hmem
      simp at hmem
    · subst he
      rw [h1] at hmem
      have hdf : s.daemonize_flag = true := by
        by_contra hneg
        unfold readyActions at hmem
        rw [if_neg hneg] at hmem
        revert hmem
        split <;> simp
      have hsl := step_lockWait_locked hl
      rw [hstep] at hsl
      have ho : o = StepOut.cont (afterLockState s) := by
        have := congrArg Prod.snd hsl
        simpa using this
      exact ⟨hl, rfl, hdf, ho, rfl⟩
  · intro s evs2 hm
    rcases run_mainLoop_acts evs2 s hm with h | h <;> simp [h]

/-- Witness for C3 at a concrete readiness descriptor and trace. -/
theorem C3_readiness_witness :
    ((run (initState { ready_fd := 0, daemonize_flag := false })
        [Event.locked]).1.count Action.writeReadyByte ≤ 1) ∧
    (∀ s : ProgState, s.phase = Phase.lockWait → 0 ≤ s.ready_fd →
      step s Event.locked =
        (Action.writeReadyByte :: Action.closeReadyFd ::
          (if s.daemonize_flag then [Action.daemonizeProc] else []),
         StepOut.cont (afterLockState s)) ∧
      (afterLockState s).locked = true ∧ (afterLockState s).ready_fd = -1) ∧
    (∀ (s : ProgState) (e : Event) (acts : List Action) (o : StepOut),
      step s e = (acts, o) → Action.writeReadyByte ∈ acts →
      s.phase = Phase.lockWait ∧ e = Event.locked ∧ 0 ≤ s.ready_fd ∧
      o = StepOut.cont (afterLockState s) ∧ (afterLockState s).locked = true ∧
      acts.count Action.writeReadyByte = 1) ∧
    (∀ (s : ProgState) (e : Event) (acts : List Action) (o : StepOut),
      step s e = (acts, o) → Action.daemonizeProc ∈ acts →
      s.phase = Phase.lockWait ∧ e = Event.locked ∧ s.daemonize_flag = true ∧
      o = StepOut.cont (afterLockState s) ∧
      (afterLockState s).locked = true) ∧
    (∀ (s : ProgState) (evs2 : List Event), s.phase = Phase.mainLoop →
      Action.writeReadyByte ∉ (run s evs2).1) :=
  C3_readiness { ready_fd := 0, daemonize_flag := false } [Event.locked]
    (by decide)

/-! ## Output / lock-surface registry (src/main.c: `create_surface` lines
126-156, `ext_session_lock_surface_v1_handle_configure` lines 158-167,
`handle_wl_output_done` lines 198-203, `handle_global` lines 270-278,
`handle_global_remove` with `destroy_surface` lines 285-295 and 94-112)

Each `struct swaylock_surface` is modelled by `RSurface`; the intrusive
`state->surfaces` list by a `List RSurface`.  Events are dispatched to the
one surface object whose registry name matches (the listener's `data`
pointer); requests sent to the server (`ack_configure`, surface creation,
destruction) are recorded as `RAction`s.  `createCount` is a ghost counter of
`create_surface` invocations on the object. -/

structure RSurface where
  output_global_name : Nat
  created : Bool
  width : Nat
  height : Nat
  dirty : Bool
  /-- Ghost: how many times `create_surface` ran on this object. -/
  createCount : Nat
deriving DecidableEq, Repr

inductive RAction
  /-- `ext_session_lock_surface_v1_ack_configure(lock_surface, serial)`. -/
  | ackConfigure (owner serial : Nat)
  /-- `ext_session_lock_v1_get_lock_surface` and the rest of
  `create_surface` for this output. -/
  | createdSurface (owner : Nat)
  /-- `destroy_surface`: unlink and destroy the surface of this output. -/
  | destroyedSurface (owner : Nat)
deriving DecidableEq, Repr

/-- `create_surface` (lines 126-156): issues the lock-surface request and
sets `surface->created = true`. -/
def create_surface (s : RSurface) : RSurface × List RAction :=
  ({ s with created := true, createCount := s.createCount + 1 },
   [RAction.createdSurface s.output_global_name])

/-- `handle_wl_output_done` (lines 198-203). -/
def handle_wl_output_done (run_display : Bool) (s : RSurface) :
    RSurface × List RAction :=
  if !s.created && run_display then create_surface s else (s, [])

/-- `ext_session_lock_surface_v1_handle_configure` (lines 158-167): store
width/height, acknowledge with exactly the received serial, mark dirty. -/
def handle_configure (s : RSurface) (serial width height : Nat) :
    RSurface × List RAction :=
  ({ s with width := width, height := height, dirty := true },
   [RAction.ackConfigure s.output_global_name serial])

/-- A fresh surface as allocated by `handle_global` for a `wl_output`
(lines 270-278): `calloc` zeroes every field. -/
def newSurface (name : Nat) : RSurface :=
  { output_global_name := name, created := false, width := 0, height := 0,
    dirty := false, createCount := 0 }

structure Registry where
  surfaces : List RSurface
  run_display : Bool
deriving DecidableEq, Repr

inductive REvent
  /-- `handle_global` advertising a `wl_output` with registry `name`. -/
  | globalOutput (name : Nat)
  /-- `handle_global_remove` for registry `name`. -/
  | globalRemove (name : Nat)
  /-- `wl_output` `done` event delivered to the surface bound to `name`. -/
  | outputDone (name : Nat)
  /-- lock-surface `configure` delivered to the surface bound to `name`. -/
  | configure (name serial width height : Nat)
  /-- The one-time `wl_list_for_each(...) create_surface(surface)` loop in
  `main` (lines 1220-1223), run before `run_display` is set. -/
  | startupCreates
  /-- `state.run_display = true` (line 1257). -/
  | runDisplayOn
deriving DecidableEq, Repr

/-- Dispatch an event to the first (unique) surface bound to `name`; no
surface, no effect — a destroyed listener never fires. -/
def updateFirst (name : Nat) (f : RSurface → RSurface × List RAction) :
    List RSurface → List RSurface × List RAction
  | [] => ([], [])
  | s :: rest =>
    if s.output_global_name = name then
      ((f s).1 :: rest, (f s).2)
    else
      let p := updateFirst name f rest
      (s :: p.1, p.2)

/-- `handle_global_remove` (lines 285-295): destroy the first surface whose
`output_global_name` matches, unconditionally on its other fields, and
`break`. -/
def removeFirstSurface (name : Nat) :
    List RSurface → List RSurface × List RAction
  | [] => ([], [])
  | s :: rest =>
    if s.output_global_name = name then
      (rest, [RAction.destroyedSurface name])
    else
      let p := removeFirstSurface name rest
      (s :: p.1, p.2)

/-- `main`'s startup loop: `create_surface` on every current surface. -/
def createAll : List RSurface → List RSurface × List RAction
  | [] => ([], [])
  | s :: rest =>
    let p := createAll rest
    ((create_surface s).1 :: p.1, (create_surface s).2 ++ p.2)

def rstep (r : Registry) : REvent → Registry × List RAction
  | REvent.globalOutput name =>
    ({ r with surfaces := newSurface name :: r.surfaces }, [])
  | REvent.globalRemove name =>
    let p := removeFirstSurface name r.surfaces
    ({ r with surfaces := p.1 }, p.2)
  | REvent.outputDone name =>
    let p := updateFirst name (handle_wl_output_done r.run_display) r.surfaces
    ({ r with surfaces := p.1 }, p.2)
  | REvent.configure name serial width height =>
    let p := updateFirst name
      (fun s => handle_configure s serial width height) r.surfaces
    ({ r with surfaces := p.1 }, p.2)
  | REvent.startupCreates =>
    let p := createAll r.surfaces
    ({ r with surfaces := p.1 }, p.2)
  | REvent.runDisplayOn => ({ r with run_display := true }, [])

def rrun (r : Registry) : List REvent → Registry × List RAction
  | [] => (r, [])
  | e :: rest =>
    let p := rstep r e
    let q := rrun p.1 rest
    (q.1, p.2 ++ q.2)

/-- State of the registry at `wl_display_connect` time: no outputs known,
`run_display` still false. -/
def initRegistry : Registry := { surfaces := [], run_display := false }

/-- A `configure` event as received by one lock surface. -/
structure ConfEvent where
  serial : Nat
  width : Nat
  height : Nat
deriving DecidableEq, Repr

/-- The configures delivered to one surface, processed in receipt order. -/
def processConfigures (s : RSurface) :
    List ConfEvent → RSurface × List RAction
  | [] => (s, [])
  | e :: rest =>
    let p := handle_configure s e.serial e.width e.height
    let q := processConfigures p.1 rest
    (q.1, p.2 ++ q.2)

/-- Claim C2: for every configure event received on a lock surface, the
handler (src/main.c lines 158-167) stores the given width and height on the
surface, acknowledges the configure with exactly the serial received, and
marks the surface dirty; over any sequence of configures the acknowledgments
are exactly the received serials, in receipt order. -/
theorem C2_configure_ack (s : RSurface) (serial width height : Nat)
    (evs : List ConfEvent) :
    (handle_configure s serial width height =
      ({ s with width := width, height := height, dirty := true },
       [RAction.ackConfigure s.output_global_name serial])) ∧
    ((processConfigures s evs).2 =
      evs.map (fun e => RAction.ackConfigure s.output_global_name e.serial)) := by
  refine ⟨rfl, ?_⟩
  induction evs generalizing s with
  | nil => rfl
  | cons e rest ih =>
    simpa [processConfigures, handle_configure] using
      ih { s with width := e.width, height := e.height, dirty := true }

/-! ### Membership and action lemmas for the registry -/

theorem updateFirst_mem {name : Nat} {f : RSurface → RSurface × List RAction}
    {l : List RSurface} {x : RSurface}
    (hx : x ∈ (updateFirst name f l).1) :
    x ∈ l ∨ ∃ s, s ∈ l ∧ s.output_global_name = name ∧ x = (f s).1 := by
  induction l with
  | nil => simp [updateFirst] at hx
  | cons s rest ih =>
    by_cases hn : s.output_global_name = name
    · simp [updateFirst, hn] at hx
      rcases hx with hx | hx
      · exact Or.inr ⟨s, by simp, hn, hx⟩
      · exact Or.inl (by simp [hx])
    · simp [updateFirst, hn] at hx
      rcases hx with hx | hx
      · exact Or.inl (by simp [hx])
      · rcases ih hx with h | ⟨t, ht, htn, hxf⟩
        · exact Or.inl (by simp [h])
        · exact Or.inr ⟨t, by simp [ht], htn, hxf⟩

theorem updateFirst_acts {name : Nat} {f : RSurface → RSurface × List RAction}
    {l : List RSurface} {a : RAction}
    (ha : a ∈ (updateFirst name f l).2) :
    ∃ s, s ∈ l ∧ s.output_global_name = name ∧ a ∈ (f s).2 := by
  induction l with
  | nil => simp [updateFirst] at ha
  | cons s rest ih =>
    by_cases hn : s.output_global_name = name
    · simp [updateFirst, hn] at ha
      exact ⟨s, by simp, hn, ha⟩
    · simp [updateFirst, hn] at ha
      rcases ih ha with ⟨t, ht, htn, haf⟩
      exact ⟨t, by simp [ht], htn, haf⟩

theorem removeFirst_subset {name : Nat} {l : List RSurface} {x : RSurface}
    (hx : x ∈ (removeFirstSurface name l).1) : x ∈ l := by
  induction l with
  | nil => simp [removeFirstSurface] at hx
  | cons s rest ih =>
    by_cases hn : s.output_global_name = name
    · simp [removeFirstSurface, hn] at hx
      simp [hx]
    · simp [removeFirstSurface, hn] at hx
      rcases hx with hx | hx
      · simp [hx]
      · simp [ih hx]

theorem removeFirst_acts {name : Nat} {l : List RSurface} {a : RAction}
    (ha : a ∈ (removeFirstSurface name l).2) :
    a = RAction.destroyedSurface name := by
  induction l with
  | nil => simp [removeFirstSurface] at ha
  | cons s rest ih =>
    by_cases hn : s.output_global_name = name
    · simp [removeFirstSurface, hn] at ha
      exact ha
    · simp [removeFirstSurface, hn] at ha
      exact ih ha

theorem createAll_mem {l : List RSurface} {x : RSurface}
    (hx : x ∈ (createAll l).1) :
    ∃ s, s ∈ l ∧ x = (create_surface s).1 := by
  induction l with
  | nil => simp [createAll] at hx
  | cons s rest ih =>
    simp [createAll] at hx
    rcases hx with hx | hx
    · exact ⟨s, by simp, hx⟩
    · rcases ih hx with ⟨t, ht, hxt⟩
      exact ⟨t, by simp [ht], hxt⟩

theorem createAll_acts {l : List RSurface} {a : RAction}
    (ha : a ∈ (createAll l).2) :
    ∃ s, s ∈ l ∧ a = RAction.createdSurface s.output_global_name := by
  induction l with
  | nil => simp [createAll] at ha
  | cons s rest ih =>
    simp [createAll, create_surface] at ha
    rcases ha with ha | ha
    · exact ⟨s, by simp, ha⟩
    · rcases ih ha with ⟨t, ht, hat⟩
      exact ⟨t, by simp [ht], hat⟩

theorem rrun_append (r : Registry) (xs ys : List REvent) :
    rrun r (xs ++ ys) =
      ((rrun (rrun r xs).1 ys).1,
       (rrun r xs).2 ++ (rrun (rrun r xs).1 ys).2) := by
  induction xs generalizing r with
  | nil => simp [rrun]
  | cons e rest ih => simp [rrun, ih]

/-! ### C7: at most one `create_surface` per output lifetime -/

/-- Before `main`'s startup create loop: nothing is created yet and
`run_display` is still false. -/
def noCreates (r : Registry) : Prop :=
  r.run_display = false ∧
  ∀ s ∈ r.surfaces, s.created = false ∧ s.createCount = 0

/-- The per-surface invariant after startup: `create_surface` ran at most
once, and exactly once iff the `created` flag is set. -/
def atMostOnce (r : Registry) : Prop :=
  ∀ s ∈ r.surfaces, s.createCount ≤ 1 ∧ (s.created = true ↔ s.createCount = 1)

theorem noCreates_step {r : Registry} {e : REvent}
    (he1 : e ≠ REvent.startupCreates) (he2 : e ≠ REvent.runDisplayOn)
    (h : noCreates r) : noCreates (rstep r e).1 := by
  obtain ⟨hrd, hs⟩ := h
  cases e with
  | startupCreates => exact absurd rfl he1
  | runDisplayOn => exact absurd rfl he2
  | globalOutput name =>
    refine ⟨hrd, ?_⟩
    intro s hmem
    simp [rstep] at hmem
    rcases hmem with hmem | hmem
    · simp [hmem, newSurface]
    · exact hs s hmem
  | globalRemove name =>
    refine ⟨hrd, ?_⟩
    intro s hmem
    simp [rstep] at hmem
    exact hs s (removeFirst_subset hmem)
  | outputDone name =>
    refine ⟨hrd, ?_⟩
    intro s hmem
    simp [rstep] at hmem
    rcases updateFirst_mem hmem with hm | ⟨t, ht, _, hst⟩
    · exact hs s hm
    · rw [hst]
      simp [handle_wl_output_done, hrd]
      exact hs t ht
  | configure name serial width height =>
    refine ⟨hrd, ?_⟩
    intro s hmem
    simp [rstep] at hmem
    rcases updateFirst_mem hmem with hm | ⟨t, ht, _, hst⟩
    · exact hs s hm
    · rw [hst]
      simp [handle_configure]
      exact hs t ht

theorem noCreates_startup {r : Registry} (h : noCreates r) :
    atMostOnce (rstep r REvent.startupCreates).1 := by
  intro s hmem
  simp [rstep] at hmem
  rcases createAll_mem hmem with ⟨t, ht, hst⟩
  obtain ⟨-, hc⟩ := h.2 t ht
  rw [hst]
  simp [create_surface, hc]

theorem atMostOnce_step {r : Registry} {e : REvent}
    (he : e ≠ REvent.startupCreates) (h : atMostOnce r) :
    atMostOnce (rstep r e).1 := by
  cases e with
  | startupCreates => exact absurd rfl he
  | runDisplayOn =>
    intro s hmem
    simp [rstep] at hmem
    exact h s hmem
  | globalOutput name =>
    intro s hmem
    simp [rstep] at hmem
    rcases hmem with hmem | hmem
    · simp [hmem, newSurface]
    · exact h s hmem
  | globalRemove name =>
    intro s hmem
    simp [rstep] at hmem
    exact h s (removeFirst_subset hmem)
  | outputDone name =>
    intro s hmem
    simp [rstep] at hmem
    rcases updateFirst_mem hmem with hm | ⟨t, ht, _, hst⟩
    · exact h s hm
    · obtain ⟨hle, hiff⟩ := h t ht
      rw [hst]
      unfold handle_wl_output_done
      split
      · rename_i hguard
        simp at hguard
        have hc0 : t.createCount = 0 := by
          rcases Nat.lt_or_ge t.createCount 1 with hlt | hge
          · omega
          · have : t.createCount = 1 := by omega
            rw [← hiff] at this
            rw [hguard.1] at this
            simp at this
        simp [create_surface, hc0]
      · exact ⟨hle, hiff⟩
  | configure name serial width height =>
    intro s hmem
    simp [rstep] at hmem
    rcases updateFirst_mem hmem with hm | ⟨t, ht, _, hst⟩
    · exact h s hm
    · obtain ⟨hle, hiff⟩ := h t ht
      rw [hst]
      simpa [handle_configure] using ⟨hle, hiff⟩

theorem rrun_noCreates {r : Registry} {evs : List REvent}
    (he : ∀ e ∈ evs, e ≠ REvent.startupCreates ∧ e ≠ REvent.runDisplayOn)
    (h : noCreates r) : noCreates (rrun r evs).1 := by
  induction evs generalizing r with
  | nil => simpa [rrun] using h
  | cons e rest ih =>
    have h1 := noCreates_step (he e (by simp)).1 (he e (by simp)).2 h
    simpa [rrun] using ih (fun x hx => he x (by simp [hx])) h1

theorem rrun_atMostOnce {r : Registry} {evs : List REvent}
    (he : ∀ e ∈ evs, e ≠ REvent.startupCreates)
    (h : atMostOnce r) : atMostOnce (rrun r evs).1 := by
  induction evs generalizing r with
  | nil => simpa [rrun] using h
  | cons e rest ih =>
    have h1 := atMostOnce_step (he e (by simp)) h
    simpa [rrun] using ih (fun x hx => he x (by simp [hx])) h1

/-- `updateFirst` acting on the unique surface bound to `name`. -/
theorem updateFirst_eq {name : Nat} {f : RSurface → RSurface × List RAction}
    {l1 l2 : List RSurface} {s0 : RSurface}
    (h1 : ∀ t ∈ l1, t.output_global_name ≠ name)
    (h0 : s0.output_global_name = name) :
    updateFirst name f (l1 ++ s0 :: l2) = (l1 ++ (f s0).1 :: l2, (f s0).2) := by
  induction l1 with
  | nil => simp [updateFirst, h0]
  | cons t rest ih =>
    have hn : t.output_global_name ≠ name := h1 t (by simp)
    have ihh := ih fun u hu => h1 u (by simp [hu])
    simp [updateFirst, hn, ihh]

/-- Claim C7: for every output, `create_surface` runs at most once over the
output's lifetime — the `created` flag makes duplicate `done` notifications
no-ops (`handle_wl_output_done`, src/main.c lines 198-203) — and after
startup (`run_display` set, the one-time startup create loop of `main`
behind us) a surface is created only by the `done` event of its output.
Traces are constrained as `main` is structured: the startup create loop runs
exactly once, before `run_display` is set. -/
theorem C7_create_once (pre mid post : List REvent)
    (hpre : ∀ e ∈ pre, e ≠ REvent.startupCreates ∧ e ≠ REvent.runDisplayOn)
    (hmid : ∀ e ∈ mid, e ≠ REvent.startupCreates ∧ e ≠ REvent.runDisplayOn)
    (hpost : ∀ e ∈ post, e ≠ REvent.startupCreates) :
    (∀ s ∈ (rrun initRegistry
        (pre ++ REvent.startupCreates ::
          (mid ++ REvent.runDisplayOn :: post))).1.surfaces,
      s.createCount ≤ 1) ∧
    (∀ (r : Registry) (e : REvent) (n : Nat), r.run_display = true →
      e ≠ REvent.startupCreates →
      RAction.createdSurface n ∈ (rstep r e).2 →
      e = REvent.outputDone n) ∧
    (∀ (r : Registry) (n : Nat) (s0 : RSurface) (l1 l2 : List RSurface),
      r.surfaces = l1 ++ s0 :: l2 →
      (∀ t ∈ l1, t.output_global_name ≠ n) → s0.output_global_name = n →
      s0.created = true →
      rstep r (REvent.outputDone n) = (r, [])) := by
  refine ⟨?_, ?_, ?_⟩
  · have h0 : noCreates initRegistry := ⟨rfl, by simp [initRegistry]⟩
    have h1 := rrun_noCreates hpre h0
    have h2 := noCreates_startup h1
    have hrest : ∀ e ∈ mid ++ REvent.runDisplayOn :: post,
        e ≠ REvent.startupCreates := by
      intro e he
      rcases List.mem_append.1 he with he | he
      · exact (hmid e he).1
      · rcases List.mem_cons.1 he with he | he
        · subst he
          decide
        · exact hpost e he
    have h3 := rrun_atMostOnce hrest h2
    intro s hmem
    have hfin : (rrun initRegistry
        (pre ++ REvent.startupCreates ::
          (mid ++ REvent.runDisplayOn :: post))).1 =
        (rrun (rstep (rrun initRegistry pre).1 REvent.startupCreates).1
          (mid ++ REvent.runDisplayOn :: post)).1 := by
      rw [rrun_append]
      simp [rrun]
    rw [hfin] at hmem
    exact (h3 s hmem).1
  · intro r e n hrd hne hmem
    cases e with
    | startupCreates => exact absurd rfl hne
    | runDisplayOn => simp [rstep] at hmem
    | globalOutput m => simp [rstep] at hmem
    | globalRemove m =>
      simp [rstep] at hmem
      have := removeFirst_acts hmem
      simp at this
    | configure m serial width height =>
      simp [rstep] at hmem
      rcases updateFirst_acts hmem with ⟨t, -, -, hat⟩
      simp [handle_configure] at hat
    | outputDone m =>
      simp [rstep] at hmem
      rcases updateFirst_acts hmem with ⟨t, -, htm, hat⟩
      unfold handle_wl_output_done at hat
      split at hat
      · simp [create_surface] at hat
        rw [hat, htm]
      · simp at hat
  · intro r n s0 l1 l2 hsurf h1 h0 hcreated
    obtain ⟨surf, rd⟩ := r
    simp only at hsurf
    subst hsurf
    have hf : handle_wl_output_done rd s0 = (s0, []) := by
      simp [handle_wl_output_done, hcreated]
    simp [rstep, updateFirst_eq h1 h0, hf]

/-- Witness for C7 at a concrete hotplug trace with duplicate `done`s. -/
theorem C7_create_once_witness :
    (∀ s ∈ (rrun initRegistry
        ([REvent.globalOutput 7, REvent.outputDone 7] ++
          REvent.startupCreates ::
          ([REvent.outputDone 7] ++ REvent.runDisplayOn ::
            [REvent.outputDone 7, REvent.outputDone 7]))).1.surfaces,
      s.createCount ≤ 1) ∧
    (∀ (r : Registry) (e : REvent) (n : Nat), r.run_display = true →
      e ≠ REvent.startupCreates →
      RAction.createdSurface n ∈ (rstep r e).2 →
      e = REvent.outputDone n) ∧
    (∀ (r : Registry) (n : Nat) (s0 : RSurface) (l1 l2 : List RSurface),
      r.surfaces = l1 ++ s0 :: l2 →
      (∀ t ∈ l1, t.output_global_name ≠ n) → s0.output_global_name = n →
      s0.created = true →
      rstep r (REvent.outputDone n) = (r, [])) :=
  C7_create_once [REvent.globalOutput 7, REvent.outputDone 7]
    [REvent.outputDone 7] [REvent.outputDone 7, REvent.outputDone 7]
    (by decide) (by decide) (by decide)

/-! ### C8: output removal destroys the surface and stops all acks -/

theorem removeFirst_eq {name : Nat} {l1 l2 : List RSurface} {s0 : RSurface}
    (h1 : ∀ t ∈ l1, t.output_global_name ≠ name)
    (h0 : s0.output_global_name = name) :
    removeFirstSurface name (l1 ++ s0 :: l2) =
      (l1 ++ l2, [RAction.destroyedSurface name]) := by
  induction l1 with
  | nil => simp [removeFirstSurface, h0]
  | cons t rest ih =>
    have hn : t.output_global_name ≠ name := h1 t (by simp)
    have ihh := ih fun u hu => h1 u (by simp [hu])
    simp [removeFirstSurface, hn, ihh]

/-- No live surface is bound to registry name `n`. -/
def noSurfaceNamed (n : Nat) (r : Registry) : Prop :=
  ∀ s ∈ r.surfaces, s.output_global_name ≠ n

theorem noSurfaceNamed_step {n : Nat} {r : Registry} {e : REvent}
    (he : e ≠ REvent.globalOutput n) (h : noSurfaceNamed n r) :
    noSurfaceNamed n (rstep r e).1 := by
  cases e with
  | globalOutput m =>
    intro s hmem
    simp [rstep] at hmem
    rcases hmem with hmem | hmem
    · rw [hmem]
      simp [newSurface]
      intro hmn
      exact he (by rw [hmn])
    · exact h s hmem
  | globalRemove m =>
    intro s hmem
    simp [rstep] at hmem
    exact h s (removeFirst_subset hmem)
  | outputDone m =>
    intro s hmem
    simp [rstep] at hmem
    rcases updateFirst_mem hmem with hm | ⟨t, ht, -, hst⟩
    · exact h s hm
    · have : s.output_global_name = t.output_global_name := by
        rw [hst]
        unfold handle_wl_output_done
        split
        · simp [create_surface]
        · simp
      rw [this]
      exact h t ht
  | configure m serial width height =>
    intro s hmem
    simp [rstep] at hmem
    rcases updateFirst_mem hmem with hm | ⟨t, ht, -, hst⟩
    · exact h s hm
    · rw [hst]
      simp [handle_configure]
      exact h t ht
  | startupCreates =>
    intro s hmem
    simp [rstep] at hmem
    rcases createAll_mem hmem with ⟨t, ht, hst⟩
    rw [hst]
    simp [create_surface]
    exact h t ht
  | runDisplayOn =>
    intro s hmem
    simp [rstep] at hmem
    exact h s hmem

theorem step_no_ack {n : Nat} {r : Registry} {e : REvent}
    (h : noSurfaceNamed n r) (serial : Nat) :
    RAction.ackConfigure n serial ∉ (rstep r e).2 := by
  intro hmem
  cases e with
  | globalOutput m => simp [rstep] at hmem
  | runDisplayOn => simp [rstep] at hmem
  | globalRemove m =>
    simp [rstep] at hmem
    have := removeFirst_acts hmem
    simp at this
  | startupCreates =>
    simp [rstep] at hmem
    rcases createAll_acts hmem with ⟨t, -, hat⟩
    simp at hat
  | outputDone m =>
    simp [rstep] at hmem
    rcases updateFirst_acts hmem with ⟨t, -, -, hat⟩
    unfold handle_wl_output_done at hat
    split at hat
    · simp [create_surface] at hat
    · simp at hat
  | configure m serial2 width height =>
    simp [rstep] at hmem
    rcases updateFirst_acts hmem with ⟨t, ht, -, hat⟩
    simp [handle_configure] at hat
    exact h t ht hat.1.symm

theorem rrun_no_ack {n : Nat} {r : Registry} {evs : List REvent}
    (hr : noSurfaceNamed n r)
    (he : ∀ e ∈ evs, e ≠ REvent.globalOutput n) :
    ∀ serial, RAction.ackConfigure n serial ∉ (rrun r evs).2 := by
  induction evs generalizing r with
  | nil => simp [rrun]
  | cons e rest ih =>
    intro serial
    have h1 := noSurfaceNamed_step (he e (by simp)) hr
    have h2 := ih h1 (fun x hx => he x (by simp [hx])) serial
    simp only [rrun, List.mem_append]
    rintro (hm | hm)
    · exact step_no_ack hr serial hm
    · exact h2 hm

/-- Claim C8: when the server withdraws an output (`handle_global_remove`,
src/main.c lines 285-295), the matching surface is destroyed immediately and
removed from the surface list, whatever its fields hold (in particular with a
configure outstanding — removal does not depend on any configure/ack state);
afterwards, as long as no output is re-advertised under that registry name,
no acknowledgment is ever attempted on behalf of that output again. -/
theorem C8_output_remove (r : Registry) (n : Nat) (s0 : RSurface)
    (l1 l2 : List RSurface) (evs : List REvent)
    (hsurf : r.surfaces = l1 ++ s0 :: l2)
    (h1 : ∀ t ∈ l1, t.output_global_name ≠ n)
    (h2 : ∀ t ∈ l2, t.output_global_name ≠ n)
    (h0 : s0.output_global_name = n)
    (he : ∀ e ∈ evs, e ≠ REvent.globalOutput n) :
    rstep r (REvent.globalRemove n) =
      ({ r with surfaces := l1 ++ l2 }, [RAction.destroyedSurface n]) ∧
    (∀ serial, RAction.ackConfigure n serial ∉
      (rrun (rstep r (REvent.globalRemove n)).1 evs).2) := by
  have hrm : rstep r (REvent.globalRemove n) =
      ({ r with surfaces := l1 ++ l2 }, [RAction.destroyedSurface n]) := by
    simp [rstep, hsurf, removeFirst_eq h1 h0]
  refine ⟨hrm, ?_⟩
  rw [hrm]
  refine rrun_no_ack ?_ he
  intro t ht
  simp at ht
  rcases ht with ht | ht
  · exact h1 t ht
  · exact h2 t ht

/-- Witness for C8: remove an output whose surface carries a fresh configure,
then deliver further configures for the dead name. -/
theorem C8_output_remove_witness :
    rstep { surfaces := [{ output_global_name := 3, created := true,
                           width := 800, height := 600, dirty := true,
                           createCount := 1 }],
            run_display := true } (REvent.globalRemove 3) =
      ({ surfaces := [], run_display := true },
       [RAction.destroyedSurface 3]) ∧
    (∀ serial, RAction.ackConfigure 3 serial ∉
      (rrun (rstep { surfaces := [{ output_global_name := 3, created := true,
                                    width := 800, height := 600,
                                    dirty := true, createCount := 1 }],
                     run_display := true } (REvent.globalRemove 3)).1
        [REvent.configure 3 42 800 600]).2) := by
  have h := C8_output_remove
    { surfaces := [{ output_global_name := 3, created := true, width := 800,
                     height := 600, dirty := true, createCount := 1 }],
      run_display := true } 3
    { output_global_name := 3, created := true, width := 800, height := 600,
      dirty := true, createCount := 1 }
    [] [] [REvent.configure 3 42 800 600]
    rfl (by simp) (by simp) rfl (by decide)
  simpa using h

/-! ## Authentication submit path (C9)

`parse_options` (src/main.c lines 688-692) only sets
`state->args.ignore_empty`; the submit path that consumes it lives in
password.c/comm.c, which are not under src/, so it is modelled from the
spec. -/

/-- Outcome of one submit on the authentication channel. -/
structure SubmitOutcome where
  /-- `some false`: failure reported locally without consulting the checker;
  `none`: the verdict is pending from the checker subprocess. -/
  verdict : Option Bool
  /-- Bytes written to the checker pipe for this submit. -/
  pipeBytes : List Nat
deriving DecidableEq, Repr

/-- Modelled from the spec: `submit(secret_bytes, ignore_empty)` of the
authentication channel — the implementing code (password.c/comm.c) is not
under src/.  Spec §4.2: "if `ignore_empty` is set and the secret is
zero-length, the channel must short-circuit locally and report failure
without round-tripping to the subprocess"; otherwise a length-prefixed
request is written to the checker pipe and the verdict is pending. -/
def submitSecret (ignore_empty : Bool) (secret : List Nat) : SubmitOutcome :=
  if ignore_empty && secret.length == 0 then
    { verdict := some false, pipeBytes := [] }
  else
    { verdict := none, pipeBytes := secret.length :: secret }

/-- Claim C9: for every submit of a zero-length secret while the
`ignore_empty` flag is set, the authentication channel reports failure
locally and writes no request bytes to the checker pipe. -/
theorem C9_ignore_empty (secret : List Nat) (hsec : secret.length = 0) :
    submitSecret true secret =
      { verdict := some false, pipeBytes := [] } := by
  simp [submitSecret, hsec]

/-- Witness for C9 at the concrete empty secret. -/
theorem C9_ignore_empty_witness :
    submitSecret true [] = { verdict := some false, pipeBytes := [] } :=
  C9_ignore_empty [] rfl

/-! ## Proof of the `parse_color` claim (C10) -/

theorem char_toNat_le {a b : Char} (h : a ≤ b) : a.toNat ≤ b.toNat := h

theorem hex_not_space {c : Char} (h : isHexDigitC c = true) :
    isSpaceC c = false := by
  by_contra hs
  rw [Bool.not_eq_false] at hs
  unfold isSpaceC at hs
  simp only [Bool.or_eq_true, beq_iff_eq] at hs
  rcases hs with ((((h1 | h1) | h1) | h1) | h1) | h1 <;>
    rw [h1] at h <;> exact absurd h (by decide)

theorem hex_ne {c x : Char} (h : isHexDigitC c = true)
    (hx : isHexDigitC x = false) : c ≠ x := by
  intro he
  rw [he, hx] at h
  exact Bool.false_ne_true h

theorem hexDigitVal_lt_of_hex {c : Char} (h : isHexDigitC c = true) :
    hexDigitVal c < 16 := by
  unfold isHexDigitC at h
  simp only [Bool.or_eq_true, Bool.and_eq_true, decide_eq_true_eq] at h
  unfold hexDigitVal
  have e0 : ('0' : Char).toNat = 48 := rfl
  have ea : ('a' : Char).toNat = 97 := rfl
  have eA : ('A' : Char).toNat = 65 := rfl
  rcases h with (⟨h1, h2⟩ | ⟨h1, h2⟩) | ⟨h1, h2⟩
  · rw [if_pos ⟨h1, h2⟩, e0]
    have hx : c.toNat ≤ 57 := char_toNat_le h2
    omega
  · have hx : c.toNat ≤ 102 := char_toNat_le h2
    have hy : 97 ≤ c.toNat := char_toNat_le h1
    have hn1 : ¬('0' ≤ c ∧ c ≤ '9') := by
      rintro ⟨-, hc⟩
      have hz : c.toNat ≤ 57 := char_toNat_le hc
      omega
    rw [if_neg hn1, if_pos ⟨h1, h2⟩, ea]
    omega
  · have hx : c.toNat ≤ 70 := char_toNat_le h2
    have hy : 65 ≤ c.toNat := char_toNat_le h1
    have hn1 : ¬('0' ≤ c ∧ c ≤ '9') := by
      rintro ⟨-, hc⟩
      have hz : c.toNat ≤ 57 := char_toNat_le hc
      omega
    have hn2 : ¬('a' ≤ c ∧ c ≤ 'f') := by
      rintro ⟨hc, -⟩
      have hz : 97 ≤ c.toNat := char_toNat_le hc
      omega
    rw [if_neg hn1, if_neg hn2, if_pos ⟨h1, h2⟩, eA]
    omega

theorem hexFold_bound (ds : List Char)
    (hds : ∀ c ∈ ds, isHexDigitC c = true) (a : Nat) :
    ds.foldl (fun a c => a * 16 + hexDigitVal c) a <
      (a + 1) * 16 ^ ds.length := by
  induction ds generalizing a with
  | nil => simp
  | cons c rest ih =>
    have hc := hexDigitVal_lt_of_hex (hds c (by simp))
    have ihh := ih (fun x hx => hds x (by simp [hx])) (a * 16 + hexDigitVal c)
    have hstep : (a * 16 + hexDigitVal c + 1) * 16 ^ rest.length ≤
        (a + 1) * 16 ^ (rest.length + 1) := by
      have h1 : a * 16 + hexDigitVal c + 1 ≤ (a + 1) * 16 := by omega
      calc (a * 16 + hexDigitVal c + 1) * 16 ^ rest.length
          ≤ (a + 1) * 16 * 16 ^ rest.length :=
            Nat.mul_le_mul_right _ h1
        _ = (a + 1) * 16 ^ (rest.length + 1) := by ring
    calc (c :: rest).foldl (fun a c => a * 16 + hexDigitVal c) a
        = rest.foldl (fun a c => a * 16 + hexDigitVal c)
            (a * 16 + hexDigitVal c) := rfl
      _ < (a * 16 + hexDigitVal c + 1) * 16 ^ rest.length := ihh
      _ ≤ (a + 1) * 16 ^ (rest.length + 1) := hstep
      _ = (a + 1) * 16 ^ (c :: rest).length := by simp

/-- On a string of plain hex digits (no sign, no whitespace, no `0x`),
`strtoul16` is the straight base-16 value of all digits, bounded by
`16 ^ length`. -/
theorem strtoul16_all_hex (cs : List Char)
    (h : ∀ c ∈ cs, isHexDigitC c = true) (hlen : cs.length ≤ 8) :
    strtoul16 cs = cs.foldl (fun a c => a * 16 + hexDigitVal c) 0 ∧
    strtoul16 cs < 16 ^ cs.length := by
  have hdw : cs.dropWhile isSpaceC = cs := by
    cases cs with
    | nil => rfl
    | cons c rest =>
      rw [List.dropWhile_cons_of_neg]
      rw [hex_not_space (h c (by simp))]
      simp
  have hds : dropSign cs = (false, cs) := by
    cases cs with
    | nil => rfl
    | cons c rest =>
      have hm : c ≠ '-' := hex_ne (h c (by simp)) (by decide)
      have hp : c ≠ '+' := hex_ne (h c (by simp)) (by decide)
      simp [dropSign, hm, hp]
  have hd0 : drop0x cs = cs := by
    unfold drop0x
    split
    · rename_i c0 x d r
      have hx : isHexDigitC x = true := by
        apply h
        simp
      have hxx : (x == 'x') = false := by
        rw [beq_eq_false_iff_ne]
        exact hex_ne hx (by decide)
      have hxX : (x == 'X') = false := by
        rw [beq_eq_false_iff_ne]
        exact hex_ne hx (by decide)
      rw [hxx, hxX]
      simp
    · rfl
  have htw : cs.takeWhile isHexDigitC = cs := List.takeWhile_eq_self_iff.mpr h
  have hbound : cs.foldl (fun a c => a * 16 + hexDigitVal c) 0 <
      16 ^ cs.length := by
    have := hexFold_bound cs h 0
    simpa using this
  have hum : cs.foldl (fun a c => a * 16 + hexDigitVal c) 0 ≤ ULONG_MAX := by
    have h16 : (16 : Nat) ^ cs.length ≤ 16 ^ 8 :=
      Nat.pow_le_pow_right (by omega) hlen
    have h8 : (16 : Nat) ^ 8 ≤ ULONG_MAX := by
      unfold ULONG_MAX
      norm_num
    omega
  have hval : strtoul16 cs = cs.foldl (fun a c => a * 16 + hexDigitVal c) 0 := by
    simp only [strtoul16, hexAccum, hdw, hds, hd0, htw]
    simp [Nat.min_eq_left hum]
  exact ⟨hval, hval ▸ hbound⟩

/-- Claim C10: `parse_color` (src/main.c lines 29-45) strips at most one
leading `#`; if the remaining length is neither 6 nor 8 it returns the
default 0xFFFFFFFF rather than failing; if the length is 6 it returns the
`strtoul`-parsed value shifted left 8 bits with alpha 0xFF appended (in
`uint32_t` arithmetic); if the length is 8 it returns the parsed value cast
to `uint32_t`.  On plain hex-digit input the parsed value is a 24-bit
(resp. 32-bit) value and no truncation occurs. -/
theorem C10_parse_color (color : List Char) :
    ((stripHash color).length ≠ 6 → (stripHash color).length ≠ 8 →
      parse_color color = 0xFFFFFFFF) ∧
    ((stripHash color).length = 6 →
      parse_color color =
        ((strtoul16 (stripHash color) % 2 ^ 32) <<< 8) % 2 ^ 32 ||| 0xFF) ∧
    ((stripHash color).length = 8 →
      parse_color color = strtoul16 (stripHash color) % 2 ^ 32) ∧
    ((∀ cs : List Char, stripHash ('#' :: cs) = cs) ∧
     (∀ (c : Char) (cs : List Char), c ≠ '#' →
        stripHash (c :: cs) = c :: cs)) ∧
    ((stripHash color).length = 6 →
      (∀ c ∈ stripHash color, isHexDigitC c = true) →
      strtoul16 (stripHash color) < 2 ^ 24 ∧
      parse_color color = strtoul16 (stripHash color) <<< 8 ||| 0xFF) ∧
    ((stripHash color).length = 8 →
      (∀ c ∈ stripHash color, isHexDigitC c = true) →
      strtoul16 (stripHash color) < 2 ^ 32 ∧
      parse_color color = strtoul16 (stripHash color)) := by
  refine ⟨?_, ?_, ?_, ⟨fun cs => by simp [stripHash], ?_⟩, ?_, ?_⟩
  · intro h6 h8
    simp [parse_color, h6, h8]
  · intro h6
    simp [parse_color, h6]
  · intro h8
    simp [parse_color, h8]
  · intro c cs hc
    simp [stripHash, hc]
  · intro h6 hhex
    obtain ⟨hval, hlt⟩ := strtoul16_all_hex (stripHash color) hhex (by omega)
    rw [h6] at hlt
    have hlt24 : strtoul16 (stripHash color) < 2 ^ 24 := by
      have he : (16 : Nat) ^ 6 = 2 ^ 24 := by norm_num
      omega
    refine ⟨hlt24, ?_⟩
    have hmod : strtoul16 (stripHash color) % 2 ^ 32 =
        strtoul16 (stripHash color) := Nat.mod_eq_of_lt (by omega)
    have hshift : strtoul16 (stripHash color) <<< 8 < 2 ^ 32 := by
      rw [Nat.shiftLeft_eq]
      calc strtoul16 (stripHash color) * 2 ^ 8 < 2 ^ 24 * 2 ^ 8 := by
            have h256 : (0 : Nat) < 2 ^ 8 := by norm_num
            exact Nat.mul_lt_mul_of_lt_of_le hlt24 (Nat.le_refl (2 ^ 8)) h256
        _ = 2 ^ 32 := by norm_num
    have e1 : parse_color color =
        ((strtoul16 (stripHash color) % 2 ^ 32) <<< 8) % 2 ^ 32 ||| 0xFF := by
      simp [parse_color, h6]
    rw [e1, hmod, Nat.mod_eq_of_lt hshift]
  · intro h8 hhex
    obtain ⟨hval, hlt⟩ := strtoul16_all_hex (stripHash color) hhex (by omega)
    rw [h8] at hlt
    have hlt32 : strtoul16 (stripHash color) < 2 ^ 32 := by
      have he : (16 : Nat) ^ 8 = 2 ^ 32 := by norm_num
      omega
    refine ⟨hlt32, ?_⟩
    have e1 : parse_color color = strtoul16 (stripHash color) % 2 ^ 32 := by
      simp [parse_color, h8]
    rw [e1, Nat.mod_eq_of_lt hlt32]

/-- Witness for C10 at concrete 6- and 8-digit colors and a hash-less odd
length. -/
theorem C10_parse_color_witness :
    parse_color "#a3a3a3".toList =
      ((strtoul16 (stripHash "#a3a3a3".toList) % 2 ^ 32) <<< 8) % 2 ^ 32 |||
        0xFF ∧
    parse_color "#abc".toList = 0xFFFFFFFF :=
  ⟨(C10_parse_color "#a3a3a3".toList).2.1 (by decide),
   (C10_parse_color "#abc".toList).1 (by decide) (by decide)⟩

end Swaylock
